import Mathlib

/-!
Verification of the markdown-to-latex pipeline: a shallow embedding of
src/tokenizer.rs and src/latex_converter.rs, followed by theorems about the
claims of the specification.

The tokenizer's mutable cursor (a current character plus a char iterator) is
modelled as a single list of characters whose head plays the role of the
current character; advancing the cursor is taking the tail.  Each byte of
state mutation in the Rust methods becomes explicit data flow here.
-/

/-- Characters for which the Rust predicate char::is_whitespace returns true
(the Unicode White_Space property). -/
def rustIsWhitespace (c : Char) : Bool :=
  c == ' ' || c == '\t' || c == '\n' || c == '\r' ||
  c == '\u000B' || c == '\u000C' || c == '\u0085' || c == '\u00A0' ||
  c == '\u1680' || ('\u2000' ≤ c && c ≤ '\u200A') || c == '\u2028' ||
  c == '\u2029' || c == '\u202F' || c == '\u205F' || c == '\u3000'

/-- Embedding of Tokenizer::take_while: returns the consumed run together
with the remaining cursor state (the source mutates self and returns the run;
here the second component is the state after the call). -/
def take_while (p : Char → Bool) (cs : List Char) : List Char × List Char :=
  (cs.takeWhile p, cs.dropWhile p)

/-- Embedding of Tokenizer::advance: the cursor moves one character forward.
At end of input the state stays empty (current becomes None in the source). -/
def advance (cs : List Char) : List Char := cs.tail

/-- Embedding of Tokenizer::skip_whitespace. -/
def skip_whitespace (cs : List Char) : List Char := cs.dropWhile rustIsWhitespace

/-- Embedding of Tokenizer::clean_text.  In the source every transformation
in its body is commented out, so the function returns its argument verbatim. -/
def clean_text (text : String) : String := text

/-- Embedding of Rust str::trim: remove leading and trailing whitespace. -/
def trim (cs : List Char) : List Char :=
  ((cs.dropWhile rustIsWhitespace).reverse.dropWhile rustIsWhitespace).reverse

/-- The Token enum of src/tokenizer.rs.  The u8 header level is modelled as a
Nat that is reduced modulo 256 where the source performs the `as u8` cast. -/
inductive Token where
  | Header : String → Nat → Token
  | Bold : String → Token
  | Italic : String → Token
  | Link : String → String → Token
  | ListItem : String → Bool → Token
  | Text : String → Token
  | Formula : String → Bool → Token
  | Newline : Token
deriving DecidableEq

/-- Embedding of Tokenizer::tokenize_header.  The level is the length of the
maximal run of hash marks, truncated by the source's `as u8` cast. -/
def tokenize_header (cs : List Char) : Token × List Char :=
  let hashes := take_while (fun ch => ch == '#') cs
  let level := hashes.1.length % 256
  let afterWs := skip_whitespace hashes.2
  let body := take_while (fun ch => ch != '\n') afterWs
  (Token.Header (String.mk (trim body.1)) level, body.2)

/-- Embedding of Tokenizer::tokenize_bold_or_italic. -/
def tokenize_bold_or_italic (cs : List Char) : Token × List Char :=
  let cs1 := advance cs
  let is_bold := cs1.head? == some '*'
  let cs2 := if is_bold then advance cs1 else cs1
  let body := take_while (fun ch => ch != '*') cs2
  let cs3 := advance body.2
  let cs4 := if is_bold then advance cs3 else cs3
  (if is_bold then Token.Bold (clean_text (String.mk body.1))
   else Token.Italic (clean_text (String.mk body.1)), cs4)

/-- Embedding of Tokenizer::tokenize_link.  The character right after the
closing bracket is discarded unconditionally by the second advance. -/
def tokenize_link (cs : List Char) : Token × List Char :=
  let body := take_while (fun ch => ch != ']') (advance cs)
  let afterText := advance (advance body.2)
  let url := take_while (fun ch => ch != ')') afterText
  (Token.Link (clean_text (String.mk body.1)) (String.mk url.1), advance url.2)

/-- Embedding of Tokenizer::is_numbered_list: the source clones the iterator
that holds the characters after the current one, keeps the leading digit run,
and asks whether that run contains a dot. -/
def is_numbered_list (cs : List Char) : Bool :=
  ((advance cs).takeWhile (fun ch => ch.isDigit)).any (fun ch => ch == '.')

/-- Embedding of Tokenizer::tokenize_list_item. -/
def tokenize_list_item (is_numbered : Bool) (cs : List Char) : Token × List Char :=
  let cs1 := if is_numbered then (take_while (fun ch => ch.isDigit) cs).2 else cs
  let cs2 := skip_whitespace (advance cs1)
  let body := take_while (fun ch => ch != '\n') cs2
  (Token.ListItem (clean_text (String.mk body.1)) is_numbered, body.2)

/-- Embedding of Tokenizer::tokenize_text. -/
def tokenize_text (cs : List Char) : Token × List Char :=
  let body := take_while (fun ch => !(ch == '#' || ch == '*' || ch == '[' || ch == '\n')) cs
  (Token.Text (clean_text (String.mk body.1)), body.2)

/-- One iteration of the dispatch loop in Tokenizer::tokenize, for a nonempty
cursor whose current character is c.  The branch order matches the Rust match
arms, including the guard on the digit arm. -/
def tokenizeStep (c : Char) (rest : List Char) : Token × List Char :=
  if c == '#' then tokenize_header (c :: rest)
  else if c == '*' then tokenize_bold_or_italic (c :: rest)
  else if c == '[' then tokenize_link (c :: rest)
  else if ('1' ≤ c && c ≤ '9') && is_numbered_list (c :: rest) then
    tokenize_list_item true (c :: rest)
  else if c == '-' then tokenize_list_item false (c :: rest)
  else if c == '\n' then (Token.Newline, rest)
  else tokenize_text (c :: rest)

/-- The loop of Tokenizer::tokenize, driven by fuel.  Every iteration of the
source loop consumes at least one character, so a fuel equal to the input
length suffices; this is proved below (tokenizeGo_eq_of_le). -/
def tokenizeGo : Nat → List Char → List Token
  | 0, _ => []
  | _ + 1, [] => []
  | fuel + 1, c :: rest =>
    (tokenizeStep c rest).1 :: tokenizeGo fuel (tokenizeStep c rest).2

/-- Tokenizer::tokenize on a character list. -/
def tokenizeChars (cs : List Char) : List Token := tokenizeGo cs.length cs

/-- Tokenizer::new followed by Tokenizer::tokenize on a string. -/
def tokenize (s : String) : List Token := tokenizeChars s.toList

/-- The LatexConverter struct of src/latex_converter.rs. -/
structure LatexConverter where
  in_list : Bool
  list_type : Option Bool
deriving DecidableEq

/-- Embedding of LatexConverter::convert_header. -/
def convert_header (text : String) (level : Nat) : String :=
  if level == 1 then "\\section\x7b" ++ text ++ "\x7d\n"
  else if level == 2 then "\\subsection\x7b" ++ text ++ "\x7d\n"
  else if level == 3 then "\\subsubsection\x7b" ++ text ++ "\x7d\n"
  else if level == 4 then "\\paragraph\x7b" ++ text ++ "\x7d\n"
  else if level == 5 then "\\subparagraph\x7b" ++ text ++ "\x7d\n"
  else "\\textbf\x7b" ++ text ++ "\x7d\n"

/-- Embedding of LatexConverter::convert_bold. -/
def convert_bold (text : String) : String := "\\textbf\x7b" ++ text ++ "\x7d"

/-- Embedding of LatexConverter::convert_italic. -/
def convert_italic (text : String) : String := "\\textit\x7b" ++ text ++ "\x7d"

/-- Embedding of LatexConverter::convert_link. -/
def convert_link (text url : String) : String :=
  "\\href\x7b" ++ url ++ "\x7d\x7b" ++ text ++ "\x7d"

/-- Embedding of LatexConverter::close_list_if_needed: returns the emitted
string and the updated state.  Note the source only clears in_list; the
list_type field keeps its old value. -/
def close_list_if_needed (s : LatexConverter) : String × LatexConverter :=
  if s.in_list then
    ("\\end\x7b" ++ (if s.list_type.getD false then "enumerate" else "itemize") ++ "\x7d\n",
     { s with in_list := false })
  else ("", s)

/-- Embedding of LatexConverter::convert_list_item. -/
def convert_list_item (s : LatexConverter) (text : String) (is_numbered : Bool) :
    String × LatexConverter :=
  if !s.in_list then
    ("\\begin\x7b" ++ (if is_numbered then "enumerate" else "itemize") ++ "\x7d\n\\item " ++ text,
     { in_list := true, list_type := some is_numbered })
  else if s.list_type == some is_numbered then
    ("\\item " ++ text, s)
  else
    ((close_list_if_needed s).1 ++ "\\begin\x7b" ++
       (if is_numbered then "enumerate" else "itemize") ++ "\x7d\n\\item " ++ text,
     { in_list := true, list_type := some is_numbered })

/-- One iteration of the fold in LatexConverter::convert.  The source match
has no arm for Token::Formula (it is non-exhaustive as written); that case is
modelled as emitting nothing and leaving the state unchanged, and theorems
about convert either avoid Formula or are insensitive to this choice. -/
def convertStep (s : LatexConverter) (t : Token) : String × LatexConverter :=
  match t with
  | Token.Header text level =>
    ((close_list_if_needed s).1 ++ convert_header text level, (close_list_if_needed s).2)
  | Token.Bold text =>
    ((close_list_if_needed s).1 ++ convert_bold text, (close_list_if_needed s).2)
  | Token.Italic text =>
    ((close_list_if_needed s).1 ++ convert_italic text, (close_list_if_needed s).2)
  | Token.Link text url =>
    ((close_list_if_needed s).1 ++ convert_link text url, (close_list_if_needed s).2)
  | Token.ListItem text is_numbered => convert_list_item s text is_numbered
  | Token.Text text =>
    ((close_list_if_needed s).1 ++ text, (close_list_if_needed s).2)
  | Token.Newline => ("\n", s)
  | Token.Formula _ _ => ("", s)

/-- The fold inside LatexConverter::convert, before the final flush. -/
def convertGo (s : LatexConverter) : List Token → String × LatexConverter
  | [] => ("", s)
  | t :: ts =>
    ((convertStep s t).1 ++ (convertGo (convertStep s t).2 ts).1,
     (convertGo (convertStep s t).2 ts).2)

/-- Embedding of LatexConverter::convert: fold the tokens from the initial
state, then append the end-of-stream flush. -/
def convert (tokens : List Token) : String :=
  (convertGo { in_list := false, list_type := none } tokens).1 ++
    (close_list_if_needed (convertGo { in_list := false, list_type := none } tokens).2).1

/-- The per-token formatting of the converter, without any list bookkeeping:
the right-hand sides of the non-ListItem arms of the source match.  ListItem
has no list-free formatting in the source and Formula has no arm at all; both
are mapped to the empty string and are never relied upon. -/
def tokenFormat : Token → String
  | Token.Header text level => convert_header text level
  | Token.Bold text => convert_bold text
  | Token.Italic text => convert_italic text
  | Token.Link text url => convert_link text url
  | Token.Text text => text
  | Token.Newline => "\n"
  | Token.ListItem _ _ => ""
  | Token.Formula _ _ => ""

/-- Whether a token's arm in the source match calls close_list_if_needed:
true exactly for Header, Bold, Italic, Link and Text.  ListItem manages the
list state itself, Newline emits a bare line break, and Formula has no arm. -/
def closesList : Token → Bool
  | Token.ListItem _ _ => false
  | Token.Newline => false
  | Token.Formula _ _ => false
  | _ => true

/-- A list-environment marker emitted by the converter. -/
inductive ListMark where
  | openEnv : Bool → ListMark
  | closeEnv : Bool → ListMark
deriving DecidableEq

/-- The literal string of one marker, as the converter prints it. -/
def markString : ListMark → String
  | ListMark.openEnv n => "\\begin\x7b" ++ (if n then "enumerate" else "itemize") ++ "\x7d\n"
  | ListMark.closeEnv n => "\\end\x7b" ++ (if n then "enumerate" else "itemize") ++ "\x7d\n"

/-- Concatenation of marker strings. -/
def marksString : List ListMark → String
  | [] => ""
  | m :: ms => markString m ++ marksString ms

/-- The non-marker part of one converter step: the item line for a list item,
the per-token formatting otherwise. -/
def plainPart (t : Token) : String :=
  match t with
  | Token.ListItem text _ => "\\item " ++ text
  | _ => tokenFormat t

/-- The list-environment markers emitted by one converter step, branch for
branch as in convertStep. -/
def stepMarks (s : LatexConverter) (t : Token) : List ListMark :=
  match t with
  | Token.ListItem _ is_numbered =>
    if !s.in_list then [ListMark.openEnv is_numbered]
    else if s.list_type == some is_numbered then []
    else [ListMark.closeEnv (s.list_type.getD false), ListMark.openEnv is_numbered]
  | Token.Newline => []
  | Token.Formula _ _ => []
  | _ => if s.in_list then [ListMark.closeEnv (s.list_type.getD false)] else []

/-- All list-environment markers emitted while converting a token list from a
given state, including the end-of-stream flush. -/
def convertMarks (s : LatexConverter) : List Token → List ListMark
  | [] => if s.in_list then [ListMark.closeEnv (s.list_type.getD false)] else []
  | t :: ts => stepMarks s t ++ convertMarks (convertStep s t).2 ts

/-- A one-deep matching check for marker sequences: the first argument is the
kind of the currently open environment, if any.  The sequence is balanced
when every close matches the open before it and nothing stays open. -/
def balancedFrom : Option Bool → List ListMark → Bool
  | none, [] => true
  | some _, [] => false
  | none, ListMark.openEnv k :: ms => balancedFrom (some k) ms
  | none, ListMark.closeEnv _ :: _ => false
  | some k, ListMark.closeEnv k' :: ms => k == k' && balancedFrom none ms
  | some _, ListMark.openEnv _ :: _ => false

/-- The environment the converter state says is open: the tracked kind when
in_list is set, nothing otherwise (using the same Option default the source
uses when closing). -/
def absOpen (s : LatexConverter) : Option Bool :=
  if s.in_list then some (s.list_type.getD false) else none

/-- Modelled from the spec: the literal or derived text carried by one token,
for the round-trip reading of the specification (a Newline stands for the
line break it came from). -/
def specTokenText : Token → String
  | Token.Header text _ => text
  | Token.Bold text => text
  | Token.Italic text => text
  | Token.Link text url => text ++ url
  | Token.ListItem text _ => text
  | Token.Text text => text
  | Token.Formula text _ => text
  | Token.Newline => "\n"

/-- Modelled from the spec: concatenation, in sequence order, of the text
carried by each token. -/
def specTokensText (ts : List Token) : String :=
  ts.foldr (fun t acc => specTokenText t ++ acc) ""

/-! Infrastructure lemmas about the tokenizer loop. -/

theorem length_dropWhile_le (p : Char → Bool) (l : List Char) :
    (l.dropWhile p).length ≤ l.length := by
  induction l with
  | nil => simp
  | cons a l ih =>
    rw [List.dropWhile_cons]
    split
    · exact Nat.le_trans ih (Nat.le_succ _)
    · exact Nat.le_refl _

theorem length_tail_le (l : List Char) : l.tail.length ≤ l.length := by
  cases l <;> simp

theorem dropWhile_tail_length_le (p : Char → Bool) (c : Char) (rest : List Char) :
    (((c :: rest).dropWhile p).tail).length ≤ rest.length := by
  rw [List.dropWhile_cons]
  split
  · exact Nat.le_trans (length_tail_le _) (length_dropWhile_le _ _)
  · simp

theorem tokenize_header_length (rest : List Char) :
    (tokenize_header ('#' :: rest)).2.length ≤ rest.length := by
  simp only [tokenize_header, take_while, skip_whitespace]
  rw [List.dropWhile_cons_of_pos (by decide)]
  exact Nat.le_trans (length_dropWhile_le _ _)
    (Nat.le_trans (length_dropWhile_le _ _) (length_dropWhile_le _ _))

theorem tokenize_bold_or_italic_length (c : Char) (rest : List Char) :
    (tokenize_bold_or_italic (c :: rest)).2.length ≤ rest.length := by
  simp only [tokenize_bold_or_italic, take_while, advance, List.tail_cons]
  by_cases hb : (rest.head? == some '*') = true
  · simp only [hb, if_true]
    exact Nat.le_trans (length_tail_le _)
      (Nat.le_trans (length_tail_le _)
        (Nat.le_trans (length_dropWhile_le _ _) (length_tail_le _)))
  · rw [Bool.not_eq_true] at hb
    simp only [hb, Bool.false_eq_true, if_false]
    exact Nat.le_trans (length_tail_le _) (length_dropWhile_le _ _)

theorem tokenize_link_length (c : Char) (rest : List Char) :
    (tokenize_link (c :: rest)).2.length ≤ rest.length := by
  simp only [tokenize_link, take_while, advance, List.tail_cons]
  exact Nat.le_trans (length_tail_le _)
    (Nat.le_trans (length_dropWhile_le _ _)
      (Nat.le_trans (length_tail_le _)
        (Nat.le_trans (length_tail_le _) (length_dropWhile_le _ _))))

theorem tokenize_list_item_length (b : Bool) (c : Char) (rest : List Char) :
    (tokenize_list_item b (c :: rest)).2.length ≤ rest.length := by
  cases b with
  | false =>
    simp only [tokenize_list_item, take_while, advance, skip_whitespace,
      Bool.false_eq_true, if_false, List.tail_cons]
    exact Nat.le_trans (length_dropWhile_le _ _) (length_dropWhile_le _ _)
  | true =>
    simp only [tokenize_list_item, take_while, advance, skip_whitespace, if_true]
    exact Nat.le_trans (length_dropWhile_le _ _)
      (Nat.le_trans (length_dropWhile_le _ _) (dropWhile_tail_length_le _ _ _))

theorem tokenize_text_length (c : Char) (rest : List Char)
    (h : (c == '#' || c == '*' || c == '[' || c == '\n') = false) :
    (tokenize_text (c :: rest)).2.length ≤ rest.length := by
  simp only [tokenize_text, take_while]
  rw [List.dropWhile_cons_of_pos (by simp [h])]
  exact length_dropWhile_le _ _

theorem tokenizeStep_length (c : Char) (rest : List Char) :
    (tokenizeStep c rest).2.length ≤ rest.length := by
  unfold tokenizeStep
  split_ifs with h1 h2 h3 h4 h5 h6
  · rw [beq_iff_eq] at h1; subst h1; exact tokenize_header_length rest
  · exact tokenize_bold_or_italic_length c rest
  · exact tokenize_link_length c rest
  · exact tokenize_list_item_length true c rest
  · exact tokenize_list_item_length false c rest
  · exact Nat.le_refl _
  · refine tokenize_text_length c rest ?_
    simp only [beq_iff_eq] at h1 h2 h3 h6
    simp [h1, h2, h3, h6]

theorem tokenizeGo_eq_of_le : ∀ (f g : Nat) (cs : List Char),
    cs.length ≤ f → cs.length ≤ g → tokenizeGo f cs = tokenizeGo g cs := by
  intro f
  induction f with
  | zero =>
    intro g cs hf _
    have hcs : cs = [] := List.eq_nil_of_length_eq_zero (Nat.le_zero.mp hf)
    subst hcs
    cases g <;> simp [tokenizeGo]
  | succ f ih =>
    intro g cs hf hg
    cases cs with
    | nil => cases g <;> simp [tokenizeGo]
    | cons c rest =>
      cases g with
      | zero => simp at hg
      | succ g =>
        simp only [tokenizeGo]
        congr 1
        have hlen := tokenizeStep_length c rest
        exact ih g _ (Nat.le_trans hlen (Nat.le_of_succ_le_succ hf))
          (Nat.le_trans hlen (Nat.le_of_succ_le_succ hg))

theorem tokenizeChars_cons (c : Char) (rest : List Char) :
    tokenizeChars (c :: rest) =
      (tokenizeStep c rest).1 :: tokenizeChars (tokenizeStep c rest).2 := by
  show tokenizeGo (c :: rest).length (c :: rest) = _
  rw [List.length_cons]
  simp only [tokenizeGo]
  congr 1
  exact tokenizeGo_eq_of_le rest.length (tokenizeStep c rest).2.length _
    (tokenizeStep_length c rest) (Nat.le_refl _)

theorem tokenizeGo_length : ∀ (f : Nat) (cs : List Char),
    (tokenizeGo f cs).length ≤ cs.length := by
  intro f
  induction f with
  | zero => intro cs; simp [tokenizeGo]
  | succ f ih =>
    intro cs
    cases cs with
    | nil => simp [tokenizeGo]
    | cons c rest =>
      simp only [tokenizeGo, List.length_cons]
      exact Nat.succ_le_succ (Nat.le_trans (ih _) (tokenizeStep_length c rest))

theorem is_numbered_list_false (cs : List Char) : is_numbered_list cs = false := by
  unfold is_numbered_list
  rw [Bool.eq_false_iff]
  intro h
  rw [List.any_eq_true] at h
  obtain ⟨x, hx, hdot⟩ := h
  have hdig : x.isDigit = true := List.mem_takeWhile_imp hx
  rw [beq_iff_eq] at hdot
  subst hdot
  exact absurd hdig (by decide)

theorem tokenizeStep_not_formula (c : Char) (rest : List Char) (s : String) (b : Bool) :
    (tokenizeStep c rest).1 ≠ Token.Formula s b := by
  unfold tokenizeStep
  split_ifs
  · simp [tokenize_header, take_while]
  · simp only [tokenize_bold_or_italic, take_while, advance]
    split <;> simp
  · simp [tokenize_link, take_while, advance]
  · simp [tokenize_list_item, take_while, advance]
  · simp [tokenize_list_item, take_while, advance]
  · simp
  · simp [tokenize_text, take_while]

theorem formula_not_mem_tokenizeGo (t : String) (b : Bool) :
    ∀ (f : Nat) (cs : List Char), Token.Formula t b ∉ tokenizeGo f cs := by
  intro f
  induction f with
  | zero => intro cs; simp [tokenizeGo]
  | succ f ih =>
    intro cs
    cases cs with
    | nil => simp [tokenizeGo]
    | cons c rest =>
      simp only [tokenizeGo, List.mem_cons, not_or]
      exact ⟨fun h => tokenizeStep_not_formula c rest t b h.symm, ih _⟩

/-- C1: the spec says a position starting with an ASCII digit yields an
ordered ListItem exactly when the lookahead confirms digits-dot-whitespace,
and that "1. List item" tokenizes to one ordered ListItem.  The code cannot
do this: is_numbered_list keeps only the leading digit run of the lookahead
and then asks whether that run contains a dot, which is impossible, so the
predicate is constantly false and "1. List item" comes out as a Text token,
contradicting the repository's own test test_ordered_list_item. -/
theorem c1_numbered_list_never_fires :
    (∀ cs : List Char, is_numbered_list cs = false) ∧
      tokenize ("1. List item") = [Token.Text ("1. List item")] := by
  refine ⟨is_numbered_list_false, by decide⟩

/-- C5: tokenize is total, the empty input gives the empty token sequence,
the token count never exceeds the character count, and every iteration of the
loop consumes at least one character of the remaining input. -/
theorem c5_tokenize_total_bounded (s : String) :
    (tokenize s).length ≤ s.length ∧ tokenize ("") = [] ∧
      ∀ (c : Char) (rest : List Char),
        (tokenizeStep c rest).2.length < (c :: rest).length := by
  refine ⟨?_, by decide, fun c rest => Nat.lt_succ_of_le (tokenizeStep_length c rest)⟩
  have h := tokenizeGo_length s.toList.length s.toList
  simpa [tokenize, tokenizeChars] using h

/-- C6: two unordered items render as a single itemize block, opened once and
closed exactly once by the end-of-stream flush; an unordered item followed by
an ordered one closes the itemize block before opening the enumerate block. -/
theorem c6_list_render_concrete :
    convert [Token.ListItem ("a") false, Token.ListItem ("b") false] =
      "\\begin\x7bitemize\x7d\n\\item a\\item b\\end\x7bitemize\x7d\n" ∧
    convert [Token.ListItem ("a") false, Token.ListItem ("b") true] =
      "\\begin\x7bitemize\x7d\n\\item a\\end\x7bitemize\x7d\n\\begin\x7benumerate\x7d\n\\item b\\end\x7benumerate\x7d\n" := by
  exact ⟨by decide, by decide⟩

/-- C7 counterexample: the claimed text cleaning never happens.  A doubled
interior space survives tokenization verbatim, and a space followed by a
hyphen is also left alone, because clean_text returns its argument. -/
theorem c7_counterexample :
    tokenize ("a  b") = [Token.Text ("a  b")] ∧
    tokenize ("a -b") = [Token.Text ("a -b")] ∧
    ("a  b" : String) ≠ "a b" := by
  exact ⟨by decide, by decide, by decide⟩

/-- C7 amended: clean_text is the identity; the double-space collapse and the
space-hyphen rewrite are commented out in the source, so every text-bearing
payload is wrapped unnormalized. -/
theorem c7_amended_clean_text_id : ∀ text : String, clean_text text = text :=
  fun _ => rfl

/-- C10: no input ever produces a Formula token; tokenize only emits the
other seven variants of the Token enum. -/
theorem c10_no_formula (s : String) (t : String) (b : Bool) :
    Token.Formula t b ∉ tokenize s :=
  formula_not_mem_tokenizeGo t b s.toList.length s.toList

/-- C2 counterexample: a star followed by a space does not become a bullet
list item.  The dispatch sends every star to tokenize_bold_or_italic, which
here produces an Italic token whose text still carries the space; no
unordered ListItem appears. -/
theorem c2_counterexample :
    tokenize ("* a") = [Token.Italic (" a")] ∧
    ∀ text : String, Token.ListItem text false ∉ tokenize ("* a") := by
  have he : tokenize ("* a") = [Token.Italic (" a")] := by decide
  refine ⟨he, fun text h => ?_⟩
  rw [he] at h
  simp at h

/-- C2 amended: when the character after a star is a space (hence not a
star), the star starts an emphasis span: the tokenizer emits an Italic token
whose text is the run up to the next star or end of input, and continues
after the closing star.  The bullet reading of star-space is an unimplemented
TODO in the source. -/
theorem c2_amended_star_space_is_italic (cs : List Char) (h : cs.head? = some ' ') :
    tokenizeChars ('*' :: cs) =
      Token.Italic (clean_text (String.mk (cs.takeWhile (fun ch => ch != '*')))) ::
        tokenizeChars ((cs.dropWhile (fun ch => ch != '*')).tail) := by
  rw [tokenizeChars_cons]
  have hstep : tokenizeStep '*' cs = tokenize_bold_or_italic ('*' :: cs) := by
    unfold tokenizeStep
    rw [if_neg (by decide), if_pos (by decide)]
  rw [hstep]
  have hb : (cs.head? == some '*') = false := by rw [h]; decide
  simp [tokenize_bold_or_italic, take_while, advance, hb]

/-- C2 witness for the amended theorem at the input star-space-a. -/
theorem c2_witness :
    (" a".toList.head? = some ' ') ∧
    tokenizeChars ('*' :: " a".toList) =
      Token.Italic (clean_text (String.mk (" a".toList.takeWhile (fun ch => ch != '*')))) ::
        tokenizeChars ((" a".toList.dropWhile (fun ch => ch != '*')).tail) :=
  ⟨by decide, c2_amended_star_space_is_italic (" a".toList) (by decide)⟩

/-- C3 counterexample: a Newline processed while a list is open emits only a
line break and leaves the state open; the claimed closing markup is not
emitted and the state does not transition to Closed. -/
theorem c3_counterexample :
    convertStep { in_list := true, list_type := some false } Token.Newline =
      ("\n", { in_list := true, list_type := some false }) ∧
    ¬ ((convertStep { in_list := true, list_type := some false } Token.Newline).2.in_list
        = false) := by
  exact ⟨rfl, by decide⟩

/-- C3 amended: every Header, Bold, Italic, Link or Text token processed in
an open list first emits the closing markup of the tracked kind and moves the
state to closed, then its own formatting; a Newline instead emits a bare line
break and leaves the state untouched. -/
theorem c3_amended_close_except_newline (s : LatexConverter) (t : Token)
    (h : s.in_list = true) (hc : closesList t = true) :
    convertStep s t =
      ((close_list_if_needed s).1 ++ tokenFormat t, { s with in_list := false }) ∧
    (close_list_if_needed s).1 =
      "\\end\x7b" ++ (if s.list_type.getD false then "enumerate" else "itemize") ++ "\x7d\n" ∧
    ∀ s2 : LatexConverter, convertStep s2 Token.Newline = ("\n", s2) := by
  refine ⟨?_, by simp [close_list_if_needed, h], fun s2 => rfl⟩
  cases t <;> simp_all [convertStep, closesList, close_list_if_needed, tokenFormat]

/-- C3 witness for the amended theorem: a Bold token in an open ordered
list. -/
theorem c3_witness :
    ({ in_list := true, list_type := some true } : LatexConverter).in_list = true ∧
    closesList (Token.Bold ("x")) = true ∧
    convertStep { in_list := true, list_type := some true } (Token.Bold ("x")) =
      ((close_list_if_needed { in_list := true, list_type := some true }).1 ++
          tokenFormat (Token.Bold ("x")),
        { in_list := false, list_type := some true }) :=
  ⟨rfl, rfl,
    (c3_amended_close_except_newline { in_list := true, list_type := some true }
      (Token.Bold ("x")) rfl rfl).1⟩

/-- C4 counterexample: the round trip loses content characters.  In the
input open-bracket a close-bracket x open-paren b close-paren, the character
x is neither a delimiter of the claimed kind nor part of any token payload:
tokenize_link discards the character after the closing bracket without
looking at it, so the concatenated payloads miss x. -/
theorem c4_counterexample :
    tokenize ("[a]x(b)") = [Token.Link ("a") ("(b")] ∧
    specTokensText (tokenize ("[a]x(b)")) = "a(b" ∧
    'x' ∈ "[a]x(b)".toList ∧ 'x' ∉ "a(b".toList := by
  exact ⟨by decide, by decide, by decide, by decide⟩

/-- C4 amended: the reconstruction does hold for markup-free inputs: any
nonempty input containing no hash, star, open bracket or newline and not
starting with a hyphen becomes a single Text token carrying the input
verbatim, so the concatenated payloads are the input itself.  In general the
claim fails: header and list texts are whitespace-trimmed and tokenize_link
unconditionally discards the character after the closing bracket. -/
theorem c4_amended_plain_text_roundtrip (cs : List Char)
    (hchars : ∀ ch ∈ cs, (ch == '#' || ch == '*' || ch == '[' || ch == '\n') = false)
    (hhead : cs.head? ≠ some '-') (hne : cs ≠ []) :
    tokenizeChars cs = [Token.Text (clean_text (String.mk cs))] ∧
    specTokensText (tokenizeChars cs) = String.mk cs := by
  obtain ⟨c, rest, rfl⟩ : ∃ c rest, cs = c :: rest := by
    cases cs with
    | nil => exact absurd rfl hne
    | cons c rest => exact ⟨c, rest, rfl⟩
  have hc := hchars c (List.mem_cons_self c rest)
  simp only [Bool.or_eq_false_iff] at hc
  obtain ⟨⟨⟨h1, h2⟩, h3⟩, h4⟩ := hc
  have hdc : (c == '-') = false := by
    refine beq_eq_false_iff_ne.mpr (fun e => hhead ?_)
    rw [List.head?_cons, e]
  have hstep : tokenizeStep c rest = tokenize_text (c :: rest) := by
    unfold tokenizeStep
    rw [if_neg (by simp [h1]), if_neg (by simp [h2]), if_neg (by simp [h3]),
      if_neg (by simp [is_numbered_list_false]), if_neg (by simp [hdc]),
      if_neg (by simp [h4])]
  have hall : ∀ ch ∈ c :: rest,
      (fun ch => !(ch == '#' || ch == '*' || ch == '[' || ch == '\n')) ch = true := by
    intro ch hch
    simp [hchars ch hch]
  have htext : tokenize_text (c :: rest) =
      (Token.Text (clean_text (String.mk (c :: rest))), []) := by
    simp only [tokenize_text, take_while]
    rw [List.takeWhile_eq_self_iff.mpr hall, List.dropWhile_eq_nil_iff.mpr hall]
  have hmain : tokenizeChars (c :: rest) = [Token.Text (clean_text (String.mk (c :: rest)))] := by
    rw [tokenizeChars_cons, hstep, htext]
    rfl
  refine ⟨hmain, ?_⟩
  rw [hmain]
  simp [specTokensText, specTokenText, clean_text]

/-- C4 witness for the amended theorem at a two-letter plain input. -/
theorem c4_witness :
    ((∀ ch ∈ "hi".toList, (ch == '#' || ch == '*' || ch == '[' || ch == '\n') = false) ∧
      "hi".toList.head? ≠ some '-' ∧ "hi".toList ≠ []) ∧
    (tokenizeChars ("hi".toList) = [Token.Text (clean_text (String.mk ("hi".toList)))] ∧
      specTokensText (tokenizeChars ("hi".toList)) = String.mk ("hi".toList)) :=
  ⟨⟨by decide, by decide, by decide⟩,
    c4_amended_plain_text_roundtrip ("hi".toList) (by decide) (by decide) (by decide)⟩

theorem hash_run_split (k : Nat) (rest : List Char) (hr : rest.head? ≠ some '#') :
    (List.replicate k '#' ++ rest).takeWhile (fun ch => ch == '#') = List.replicate k '#' ∧
    (List.replicate k '#' ++ rest).dropWhile (fun ch => ch == '#') = rest := by
  induction k with
  | zero =>
    simp only [List.replicate_zero, List.nil_append]
    cases rest with
    | nil => simp
    | cons r rs =>
      have hrne : (r == '#') = false := by
        refine beq_eq_false_iff_ne.mpr (fun e => hr ?_)
        rw [List.head?_cons, e]
      rw [List.takeWhile_cons, List.dropWhile_cons]
      simp [hrne]
  | succ k ih =>
    simp only [List.replicate_succ, List.cons_append]
    rw [List.takeWhile_cons, List.dropWhile_cons]
    simp only [show (('#' : Char) == '#') = true from rfl, if_true]
    exact ⟨by rw [ih.1], ih.2⟩

set_option maxRecDepth 40000 in
/-- C8 counterexample: the header level is not always the literal length of
the hash run.  The source casts the run length to u8, so a run of 256 hash
marks yields level 0, not 256. -/
theorem c8_counterexample :
    tokenizeChars (List.replicate 256 '#' ++ [' ', 'x']) = [Token.Header ("x") 0] ∧
    (List.replicate 256 '#').length = 256 := by
  exact ⟨by decide, by decide⟩

/-- C8 amended: the Header token's level is the length of the maximal hash
run reduced modulo 256 (the u8 cast); for runs of length 1 through 255 this
is still the literal count.  The renderer maps levels 1 through 5 to the
section, subsection, subsubsection, paragraph and subparagraph wrappers and
every other level to the strong-emphasis wrapper. -/
theorem c8_amended_header_level_mod (k : Nat) (rest : List Char)
    (hk : 0 < k) (hr : rest.head? ≠ some '#') :
    tokenizeChars (List.replicate k '#' ++ rest) =
      Token.Header
          (String.mk (trim ((skip_whitespace rest).takeWhile (fun ch => ch != '\n'))))
          (k % 256) ::
        tokenizeChars ((skip_whitespace rest).dropWhile (fun ch => ch != '\n')) ∧
    (∀ text : String, convert_header text 1 = "\\section\x7b" ++ text ++ "\x7d\n") ∧
    (∀ text : String, convert_header text 2 = "\\subsection\x7b" ++ text ++ "\x7d\n") ∧
    (∀ text : String, convert_header text 3 = "\\subsubsection\x7b" ++ text ++ "\x7d\n") ∧
    (∀ text : String, convert_header text 4 = "\\paragraph\x7b" ++ text ++ "\x7d\n") ∧
    (∀ text : String, convert_header text 5 = "\\subparagraph\x7b" ++ text ++ "\x7d\n") ∧
    (∀ (text : String) (level : Nat), level = 0 ∨ 5 < level →
      convert_header text level = "\\textbf\x7b" ++ text ++ "\x7d\n") := by
  refine ⟨?_, fun text => rfl, fun text => rfl, fun text => rfl, fun text => rfl,
    fun text => rfl, ?_⟩
  · cases k with
    | zero => exact absurd hk (by simp)
    | succ k =>
      have hsplit := hash_run_split (k + 1) rest hr
      have hrw : List.replicate (k + 1) '#' ++ rest = '#' :: (List.replicate k '#' ++ rest) := by
        simp [List.replicate_succ]
      rw [hrw, tokenizeChars_cons]
      have hstep : tokenizeStep '#' (List.replicate k '#' ++ rest) =
          tokenize_header ('#' :: (List.replicate k '#' ++ rest)) := by
        unfold tokenizeStep
        rw [if_pos (by decide)]
      rw [hstep]
      simp only [tokenize_header, take_while, ← hrw, hsplit.1, hsplit.2,
        List.length_replicate]
  · intro text level hlev
    have e1 : (level == 1) = false := beq_eq_false_iff_ne.mpr (by omega)
    have e2 : (level == 2) = false := beq_eq_false_iff_ne.mpr (by omega)
    have e3 : (level == 3) = false := beq_eq_false_iff_ne.mpr (by omega)
    have e4 : (level == 4) = false := beq_eq_false_iff_ne.mpr (by omega)
    have e5 : (level == 5) = false := beq_eq_false_iff_ne.mpr (by omega)
    simp [convert_header, e1, e2, e3, e4, e5]

/-- C8 witness for the amended theorem: six hash marks followed by a space
and a letter give a level six header. -/
theorem c8_witness :
    (0 < 6 ∧ (" t".toList.head? ≠ some '#')) ∧
    tokenizeChars (List.replicate 6 '#' ++ " t".toList) =
      Token.Header
          (String.mk (trim ((skip_whitespace (" t".toList)).takeWhile (fun ch => ch != '\n'))))
          (6 % 256) ::
        tokenizeChars ((skip_whitespace (" t".toList)).dropWhile (fun ch => ch != '\n')) :=
  ⟨⟨by decide, by decide⟩,
    (c8_amended_header_level_mod 6 (" t".toList) (by decide) (by decide)).1⟩

theorem string_item_merge (x t : String) :
    (x ++ "\x7d\n") ++ ("\\item " ++ t) = (x ++ "\x7d\n\\item ") ++ t :=
  calc (x ++ "\x7d\n") ++ ("\\item " ++ t)
      = x ++ ("\x7d\n" ++ ("\\item " ++ t)) :=
        String.append_assoc x ("\x7d\n") ("\\item " ++ t)
    _ = x ++ (("\x7d\n" ++ "\\item ") ++ t) := by
        rw [String.append_assoc ("\x7d\n") ("\\item ") t]
    _ = x ++ ("\x7d\n\\item " ++ t) := by
        rw [show ("\x7d\n" : String) ++ "\\item " = "\x7d\n\\item " from by decide]
    _ = (x ++ "\x7d\n\\item ") ++ t := (String.append_assoc x ("\x7d\n\\item ") t).symm

theorem string_switch_merge (c e t : String) :
    (((c ++ "\\begin\x7b") ++ e) ++ "\x7d\n\\item ") ++ t =
      (c ++ (("\\begin\x7b" ++ e) ++ "\x7d\n")) ++ ("\\item " ++ t) :=
  calc (((c ++ "\\begin\x7b") ++ e) ++ "\x7d\n\\item ") ++ t
      = ((c ++ ("\\begin\x7b" ++ e)) ++ "\x7d\n\\item ") ++ t := by
        rw [String.append_assoc c ("\\begin\x7b") e]
    _ = (c ++ (("\\begin\x7b" ++ e) ++ "\x7d\n\\item ")) ++ t := by
        rw [String.append_assoc c ("\\begin\x7b" ++ e) ("\x7d\n\\item ")]
    _ = c ++ ((("\\begin\x7b" ++ e) ++ "\x7d\n\\item ") ++ t) :=
        String.append_assoc c (("\\begin\x7b" ++ e) ++ "\x7d\n\\item ") t
    _ = c ++ ((("\\begin\x7b" ++ e) ++ "\x7d\n") ++ ("\\item " ++ t)) := by
        rw [string_item_merge ("\\begin\x7b" ++ e) t]
    _ = (c ++ (("\\begin\x7b" ++ e) ++ "\x7d\n")) ++ ("\\item " ++ t) :=
        (String.append_assoc c (("\\begin\x7b" ++ e) ++ "\x7d\n") ("\\item " ++ t)).symm

theorem closer_marks (s : LatexConverter) (f : String) :
    (close_list_if_needed s).1 ++ f =
      marksString (if s.in_list then [ListMark.closeEnv (s.list_type.getD false)] else []) ++
        f := by
  by_cases h : s.in_list = true
  · simp [close_list_if_needed, h, marksString, markString, String.append_empty]
  · rw [Bool.not_eq_true] at h
    simp [close_list_if_needed, h, marksString]

theorem convertStep_marks_string (s : LatexConverter) (t : Token) :
    (convertStep s t).1 = marksString (stepMarks s t) ++ plainPart t := by
  cases t with
  | Header text level => exact closer_marks s (convert_header text level)
  | Bold text => exact closer_marks s (convert_bold text)
  | Italic text => exact closer_marks s (convert_italic text)
  | Link text url => exact closer_marks s (convert_link text url)
  | Text text => exact closer_marks s text
  | Newline => simp [convertStep, stepMarks, plainPart, tokenFormat, marksString]
  | Formula text b => simp [convertStep, stepMarks, plainPart, tokenFormat, marksString]
  | ListItem text n =>
    by_cases h : s.in_list = true
    · by_cases h2 : (s.list_type == some n) = true
      · simp [convertStep, convert_list_item, stepMarks, plainPart, h, h2, marksString]
      · simp only [convertStep, convert_list_item, stepMarks, plainPart, h, h2,
          Bool.not_true, Bool.false_eq_true, if_false, if_true, marksString,
          markString, close_list_if_needed, String.append_empty]
        exact string_switch_merge
          ("\\end\x7b" ++ (if s.list_type.getD false then "enumerate" else "itemize") ++ "\x7d\n")
          (if n then "enumerate" else "itemize") text
    · rw [Bool.not_eq_true] at h
      simp only [convertStep, convert_list_item, stepMarks, plainPart, h,
        Bool.not_false, if_true, marksString, markString, String.append_empty]
      exact (string_item_merge ("\\begin\x7b" ++ (if n then "enumerate" else "itemize")) text).symm

theorem convertMarks_balanced (ts : List Token) : ∀ (s : LatexConverter),
    balancedFrom (absOpen s) (convertMarks s ts) = true := by
  induction ts with
  | nil =>
    intro s
    by_cases h : s.in_list = true
    · simp [convertMarks, absOpen, h, balancedFrom]
    · rw [Bool.not_eq_true] at h
      simp [convertMarks, absOpen, h, balancedFrom]
  | cons t ts ih =>
    intro s
    cases t with
    | ListItem text n =>
      by_cases h : s.in_list = true
      · by_cases h2 : (s.list_type == some n) = true
        · have hstate : (convertStep s (Token.ListItem text n)).2 = s := by
            simp [convertStep, convert_list_item, h, h2]
          simp only [convertMarks, stepMarks, h, h2, Bool.not_true, Bool.false_eq_true,
            if_false, if_true, List.nil_append, hstate]
          exact ih s
        · have hstate : (convertStep s (Token.ListItem text n)).2 =
              { in_list := true, list_type := some n } := by
            simp [convertStep, convert_list_item, h, h2]
          simp only [convertMarks, stepMarks, h, h2, Bool.not_true, Bool.false_eq_true,
            if_false, if_true, List.cons_append, List.nil_append, hstate]
          simp only [absOpen, h, if_true, balancedFrom, beq_self_eq_true, Bool.true_and]
          have := ih { in_list := true, list_type := some n }
          simpa [absOpen] using this
      · rw [Bool.not_eq_true] at h
        have hstate : (convertStep s (Token.ListItem text n)).2 =
            { in_list := true, list_type := some n } := by
          simp [convertStep, convert_list_item, h]
        simp only [convertMarks, stepMarks, h, Bool.not_false, if_true,
          List.cons_append, List.nil_append, hstate]
        simp only [absOpen, h, Bool.false_eq_true, if_false, balancedFrom]
        have := ih { in_list := true, list_type := some n }
        simpa [absOpen] using this
    | Newline =>
      simp only [convertMarks, stepMarks, List.nil_append, convertStep]
      exact ih s
    | Formula text b =>
      simp only [convertMarks, stepMarks, List.nil_append, convertStep]
      exact ih s
    | Header text level =>
      by_cases h : s.in_list = true
      · have hstate : (close_list_if_needed s).2 = { s with in_list := false } := by
          simp [close_list_if_needed, h]
        simp only [convertMarks, stepMarks, h, if_true, List.cons_append, List.nil_append,
          convertStep, hstate]
        simp only [absOpen, h, if_true, balancedFrom, beq_self_eq_true, Bool.true_and]
        have := ih { s with in_list := false }
        simpa [absOpen] using this
      · rw [Bool.not_eq_true] at h
        have hstate : (close_list_if_needed s).2 = s := by
          simp [close_list_if_needed, h]
        simp only [convertMarks, stepMarks, h, Bool.false_eq_true, if_false,
          List.nil_append, convertStep, hstate]
        exact ih s
    | Bold text =>
      by_cases h : s.in_list = true
      · have hstate : (close_list_if_needed s).2 = { s with in_list := false } := by
          simp [close_list_if_needed, h]
        simp only [convertMarks, stepMarks, h, if_true, List.cons_append, List.nil_append,
          convertStep, hstate]
        simp only [absOpen, h, if_true, balancedFrom, beq_self_eq_true, Bool.true_and]
        have := ih { s with in_list := false }
        simpa [absOpen] using this
      · rw [Bool.not_eq_true] at h
        have hstate : (close_list_if_needed s).2 = s := by
          simp [close_list_if_needed, h]
        simp only [convertMarks, stepMarks, h, Bool.false_eq_true, if_false,
          List.nil_append, convertStep, hstate]
        exact ih s
    | Italic text =>
      by_cases h : s.in_list = true
      · have hstate : (close_list_if_needed s).2 = { s with in_list := false } := by
          simp [close_list_if_needed, h]
        simp only [convertMarks, stepMarks, h, if_true, List.cons_append, List.nil_append,
          convertStep, hstate]
        simp only [absOpen, h, if_true, balancedFrom, beq_self_eq_true, Bool.true_and]
        have := ih { s with in_list := false }
        simpa [absOpen] using this
      · rw [Bool.not_eq_true] at h
        have hstate : (close_list_if_needed s).2 = s := by
          simp [close_list_if_needed, h]
        simp only [convertMarks, stepMarks, h, Bool.false_eq_true, if_false,
          List.nil_append, convertStep, hstate]
        exact ih s
    | Link text url =>
      by_cases h : s.in_list = true
      · have hstate : (close_list_if_needed s).2 = { s with in_list := false } := by
          simp [close_list_if_needed, h]
        simp only [convertMarks, stepMarks, h, if_true, List.cons_append, List.nil_append,
          convertStep, hstate]
        simp only [absOpen, h, if_true, balancedFrom, beq_self_eq_true, Bool.true_and]
        have := ih { s with in_list := false }
        simpa [absOpen] using this
      · rw [Bool.not_eq_true] at h
        have hstate : (close_list_if_needed s).2 = s := by
          simp [close_list_if_needed, h]
        simp only [convertMarks, stepMarks, h, Bool.false_eq_true, if_false,
          List.nil_append, convertStep, hstate]
        exact ih s
    | Text text =>
      by_cases h : s.in_list = true
      · have hstate : (close_list_if_needed s).2 = { s with in_list := false } := by
          simp [close_list_if_needed, h]
        simp only [convertMarks, stepMarks, h, if_true, List.cons_append, List.nil_append,
          convertStep, hstate]
        simp only [absOpen, h, if_true, balancedFrom, beq_self_eq_true, Bool.true_and]
        have := ih { s with in_list := false }
        simpa [absOpen] using this
      · rw [Bool.not_eq_true] at h
        have hstate : (close_list_if_needed s).2 = s := by
          simp [close_list_if_needed, h]
        simp only [convertMarks, stepMarks, h, Bool.false_eq_true, if_false,
          List.nil_append, convertStep, hstate]
        exact ih s

theorem convertStep_keeps_type (s : LatexConverter) (t : Token)
    (h : (!s.in_list || s.list_type.isSome) = true) :
    (!(convertStep s t).2.in_list || ((convertStep s t).2.list_type).isSome) = true := by
  cases t with
  | ListItem text n =>
    by_cases hl : s.in_list = true
    · by_cases h2 : (s.list_type == some n) = true
      · have hs : s.list_type.isSome = true := by
          rw [hl] at h
          simpa using h
        simp [convertStep, convert_list_item, hl, h2, hs]
      · simp [convertStep, convert_list_item, hl, h2]
    · rw [Bool.not_eq_true] at hl
      simp [convertStep, convert_list_item, hl]
  | Newline => simpa [convertStep] using h
  | Formula text b => simpa [convertStep] using h
  | Header text level =>
    by_cases hl : s.in_list = true
    · simp [convertStep, close_list_if_needed, hl]
    · rw [Bool.not_eq_true] at hl
      simp [convertStep, close_list_if_needed, hl]
  | Bold text =>
    by_cases hl : s.in_list = true
    · simp [convertStep, close_list_if_needed, hl]
    · rw [Bool.not_eq_true] at hl
      simp [convertStep, close_list_if_needed, hl]
  | Italic text =>
    by_cases hl : s.in_list = true
    · simp [convertStep, close_list_if_needed, hl]
    · rw [Bool.not_eq_true] at hl
      simp [convertStep, close_list_if_needed, hl]
  | Link text url =>
    by_cases hl : s.in_list = true
    · simp [convertStep, close_list_if_needed, hl]
    · rw [Bool.not_eq_true] at hl
      simp [convertStep, close_list_if_needed, hl]
  | Text text =>
    by_cases hl : s.in_list = true
    · simp [convertStep, close_list_if_needed, hl]
    · rw [Bool.not_eq_true] at hl
      simp [convertStep, close_list_if_needed, hl]

theorem convertGo_keeps_type (ts : List Token) : ∀ (s : LatexConverter),
    (!s.in_list || s.list_type.isSome) = true →
    (!(convertGo s ts).2.in_list || ((convertGo s ts).2.list_type).isSome) = true := by
  induction ts with
  | nil => intro s h; simpa [convertGo] using h
  | cons t ts ih =>
    intro s h
    simp only [convertGo]
    exact ih _ (convertStep_keeps_type s t h)

/-- C9: the rendered output is balanced with respect to list environments.
First conjunct: every converter step's output string is exactly the marker
strings it emits (opens and closes of itemize or enumerate) followed by the
token's plain part, so markers in the output are exactly the stepMarks
stream.  Second conjunct: that stream, over any token sequence from the
initial state and including the end-of-stream flush, is balanced one-deep:
every close matches the kind of the open before it and nothing stays open.
Third conjunct: in every reachable state, in_list implies that list_type
holds some kind. -/
theorem c9_list_balance :
    (∀ (s : LatexConverter) (t : Token),
        (convertStep s t).1 = marksString (stepMarks s t) ++ plainPart t) ∧
    (∀ ts : List Token,
        balancedFrom none
          (convertMarks { in_list := false, list_type := none } ts) = true) ∧
    (∀ ts : List Token,
        (!(convertGo { in_list := false, list_type := none } ts).2.in_list ||
          ((convertGo { in_list := false, list_type := none } ts).2.list_type).isSome)
          = true) := by
  refine ⟨convertStep_marks_string, fun ts => ?_, fun ts => convertGo_keeps_type ts _ rfl⟩
  have hb := convertMarks_balanced ts { in_list := false, list_type := none }
  simpa [absOpen] using hb
